import Mathlib

set_option maxHeartbeats 1000000

/-! # Verification of the OpenAPI → MCP tool-definition generator

Shallow embedding of `src/gen-tool-defs.ts` together with the extractor and
template-sanitizer modules it imports (`parser/extract-tools.ts`,
`utils/helpers.ts`); those two modules are not part of the sources and are
modelled from the specification document. -/

/-- JSON values, used for the schema fragments carried through extraction. -/
inductive Json where
  | null : Json
  | bool (b : Bool) : Json
  | num (n : Int) : Json
  | str (s : String) : Json
  | arr (elems : List Json) : Json
  | obj (fields : List (String × Json)) : Json

/-- Look up a key in a JSON object (first binding wins); `none` on non-objects. -/
def Json.lookupKey : Json → String → Option Json
  | .obj fields, k => fields.lookup k
  | _, _ => none

/-- A schema is "a plain object type" when it declares `type: object`. -/
def isObjectSchema (s : Json) : Bool :=
  match s.lookupKey "type" with
  | some (.str t) => t == "object"
  | _ => false

/-- The `properties` map of a schema (empty when absent or malformed). -/
def Json.propsOf (s : Json) : List (String × Json) :=
  match s.lookupKey "properties" with
  | some (.obj fields) => fields
  | _ => []

/-- The `required` name list of a schema (empty when absent or malformed). -/
def Json.requiredOf (s : Json) : List String :=
  match s.lookupKey "required" with
  | some (.arr elems) => elems.filterMap (fun v => match v with | .str s => some s | _ => none)
  | _ => []

/-! ## Decimal rendering of naturals (for name disambiguator suffixes) -/

/-- Little-endian decimal digits of `n`, with explicit structural fuel. -/
def natDigitsAux : Nat → Nat → List Nat
  | 0, _ => []
  | _ + 1, 0 => []
  | fuel + 1, n + 1 => ((n + 1) % 10) :: natDigitsAux fuel ((n + 1) / 10)

/-- Little-endian decimal digits of `n`. -/
def natDigits (n : Nat) : List Nat := natDigitsAux n n

/-- The character for a decimal digit. -/
def digitChar (d : Nat) : Char := Char.ofNat (48 + d)

/-- Decimal rendering of a natural number. -/
def natToString (n : Nat) : String :=
  if n = 0 then "0" else String.mk (((natDigits n).map digitChar).reverse)

/-! ## Unique-name enforcement (spec §4.1 step 3, error taxonomy `NameCollision`) -/

/-- A disambiguated candidate name: the base with a numeric suffix. -/
def candName (base : String) (k : Nat) : String := base ++ "_" ++ natToString k

/-- Modelled from the spec: the deterministic collision resolution of
`parser/extract-tools.ts` (missing from the sources): starting at suffix 2,
take the first numbered candidate not already used. `fuel` bounds the search
structurally; callers pass enough fuel for the search to succeed. -/
def freshSuffix (used : List String) (base : String) : Nat → Nat → String
  | k, 0 => candName base k
  | k, fuel + 1 =>
    if candName base k ∈ used then freshSuffix used base (k + 1) fuel
    else candName base k

/-- Modelled from the spec: global uniqueness enforcement for synthesized tool
names in `parser/extract-tools.ts` (missing from the sources): keep the base
name if unused, otherwise append the first free numeric disambiguator. -/
def uniqueName (used : List String) (base : String) : String :=
  if base ∈ used then freshSuffix used base 2 (used.length + 1) else base

/-! ## Data model of the dereferenced OpenAPI document (spec §3) -/

/-- One security requirement alternative: scheme name → scope list. -/
abbrev SecurityRequirement := List (String × List String)

/-- A parameter declaration: name, location tag, required flag, schema. -/
structure Param where
  name : String
  loc : String
  required : Bool
  schema : Json

/-- A request body: content-type → schema map in declaration order, required flag. -/
structure RequestBody where
  content : List (String × Json)
  required : Bool

/-- One operation of the document. -/
structure Operation where
  operationId : Option String
  parameters : List Param
  requestBody : Option RequestBody
  tags : List String
  summary : Option String
  description : Option String
  security : Option (List SecurityRequirement)

/-- One path entry: path-level parameters and the method → operation map. -/
structure PathItem where
  parameters : List Param
  operations : List (String × Operation)

/-- A fully-dereferenced document: optional paths collection, global security. -/
structure ApiDocument where
  paths : Option (List (String × PathItem))
  security : Option (List SecurityRequirement)

/-- The normalized output unit (spec §3 ToolDescriptor). -/
structure ToolDescriptor where
  name : String
  tags : List String
  description : String
  inputSchemaProperties : List (String × Json)
  inputSchemaRequired : List String
  method : String
  pathTemplate : String
  executionParameters : List (String × String)
  requestBodyContentType : Option String
  securityRequirements : List SecurityRequirement

/-! ## The extractor (spec §4.1), modelled from the spec -/

/-- HTTP methods that denote real operations, in the canonical per-path order. -/
def httpMethods : List String := ["get", "put", "post", "delete", "patch", "head", "options"]

/-- The recognized parameter locations, in the fixed iteration order. -/
def recognizedLocs : List String := ["path", "query", "header", "cookie"]

/-- Modelled from the spec: the effective parameter set of an operation in
`parser/extract-tools.ts` (missing from the sources): inherited path-level
parameters are kept unless an operation-level parameter shares their
(name, location) key, and operation-level parameters are appended. -/
def effectiveParameters (pathParams opParams : List Param) : List Param :=
  pathParams.filter
      (fun p => !(opParams.any (fun q => q.name == p.name && q.loc == p.loc)))
    ++ opParams

/-- Parameters grouped by location in the order path, query, header, cookie
(spec §4.1 step 4); parameters at unrecognized locations are not listed. -/
def orderedParams (ps : List Param) : List Param :=
  (recognizedLocs.map (fun l => ps.filter (fun p => p.loc == l))).flatten

/-- Modelled from the spec: name synthesis from method + path in
`parser/extract-tools.ts` (missing from the sources): strip path-parameter
braces, turn separators into underscores, lower-case. -/
def synthesizeName (method path : String) : String :=
  let cleaned := (path.data.filter
      (fun c => !(c == Char.ofNat 123 || c == Char.ofNat 125))).map
      (fun c => if c == '/' || c == '.' || c == '-' then '_' else c.toLower)
  method.toLower ++ String.mk cleaned

/-- The base tool name: the explicit operation identifier when present,
otherwise synthesized from method and path (spec §4.1 step 3). -/
def baseName (op : Operation) (method path : String) : String :=
  match op.operationId with
  | some oid => oid
  | none => synthesizeName method path

/-- Whether a character list contains `json` as a contiguous substring. -/
def containsJsonSub : List Char → Bool
  | [] => false
  | c :: rest => List.isPrefixOf "json".data (c :: rest) || containsJsonSub rest

/-- An `application/json`-like content type: one mentioning `json`. -/
def isJsonLike (ct : String) : Bool := containsJsonSub ct.data

/-- Modelled from the spec: content-type selection in
`parser/extract-tools.ts` (missing from the sources): the first
`json`-like declared type if any, else the first declared type. -/
def selectContentType (content : List (String × Json)) : Option (String × Json) :=
  match content.find? (fun e => isJsonLike e.1) with
  | some e => some e
  | none => content.head?

/-- Modelled from the spec: security resolution in `parser/extract-tools.ts`
(missing from the sources): the operation-level list when non-empty, else the
document's global list unchanged, else the empty list. -/
def resolveSecurity (opSec globalSec : Option (List SecurityRequirement)) :
    List SecurityRequirement :=
  match opSec with
  | some l => if l.isEmpty then globalSec.getD [] else l
  | none => globalSec.getD []

/-- Properties contributed by the non-body parameters. -/
def paramProperties (ps : List Param) : List (String × Json) :=
  (orderedParams ps).map (fun p => (p.name, p.schema))

/-- Names of the required non-body parameters. -/
def paramRequired (ps : List Param) : List String :=
  ((orderedParams ps).filter (fun p => p.required)).map (fun p => p.name)

/-- The (name, location) execution bindings of the non-body parameters. -/
def executionParams (ps : List Param) : List (String × String) :=
  (orderedParams ps).map (fun p => (p.name, p.loc))

/-- Modelled from the spec: body-schema merge in `parser/extract-tools.ts`
(missing from the sources): an object-typed body schema flattens its
properties and required names into the top level; any other body schema is
nested as a single `requestBody` property. -/
def mergeBody (props : List (String × Json)) (req : List String)
    (schema : Json) (bodyRequired : Bool) : List (String × Json) × List String :=
  if isObjectSchema schema then
    (props ++ schema.propsOf, req ++ schema.requiredOf)
  else
    (props ++ [("requestBody", schema)],
     req ++ (if bodyRequired then ["requestBody"] else []))

/-- The input-schema contribution of an operation's request body: properties,
required names and chosen content type after the merge of spec §4.1 step 5. -/
def bodyMerged (op : Operation) (eff : List Param) :
    List (String × Json) × List String × Option String :=
  match op.requestBody with
  | none => (paramProperties eff, paramRequired eff, none)
  | some rb =>
    match selectContentType rb.content with
    | none => (paramProperties eff, paramRequired eff, none)
    | some cts =>
      ((mergeBody (paramProperties eff) (paramRequired eff) cts.2 rb.required).1,
       (mergeBody (paramProperties eff) (paramRequired eff) cts.2 rb.required).2,
       some cts.1)

/-- Modelled from the spec: normalization of a single operation in
`parser/extract-tools.ts` (missing from the sources). `none` means the
operation is skipped (`OperationSkipped`): some effective parameter has an
unrecognized location. -/
def extractOp (globalSec : Option (List SecurityRequirement)) (used : List String)
    (path : String) (pathParams : List Param) (method : String) (op : Operation) :
    Option ToolDescriptor :=
  if (effectiveParameters pathParams op.parameters).all
      (fun p => recognizedLocs.contains p.loc) then
    some {
      name := uniqueName used (baseName op method path)
      tags := op.tags
      description := op.description.getD (op.summary.getD "")
      inputSchemaProperties := (bodyMerged op (effectiveParameters pathParams op.parameters)).1
      inputSchemaRequired := (bodyMerged op (effectiveParameters pathParams op.parameters)).2.1
      method := method
      pathTemplate := path
      executionParameters := executionParams (effectiveParameters pathParams op.parameters)
      requestBodyContentType := (bodyMerged op (effectiveParameters pathParams op.parameters)).2.2
      securityRequirements := resolveSecurity op.security globalSec
    }
  else none

/-- All (path, inherited parameters, method, operation) tuples in traversal
order: paths in declaration order, methods in the canonical order per path. -/
def opsOfPaths (paths : List (String × PathItem)) :
    List (String × List Param × String × Operation) :=
  (paths.map (fun e =>
    (httpMethods.filterMap (fun m => (e.2.operations.lookup m).map (fun op => (m, op)))).map
      (fun mo => (e.1, e.2.parameters, mo.1, mo.2)))).flatten

/-- Modelled from the spec: the extraction loop of `parser/extract-tools.ts`
(missing from the sources), threading the set of names used so far; a skipped
operation contributes nothing and reserves no name. -/
def extractLoop (globalSec : Option (List SecurityRequirement)) :
    List String → List (String × List Param × String × Operation) → List ToolDescriptor
  | _, [] => []
  | used, e :: rest =>
    match extractOp globalSec used e.1 e.2.1 e.2.2.1 e.2.2.2 with
    | none => extractLoop globalSec used rest
    | some d => d :: extractLoop globalSec (d.name :: used) rest

/-- The fatal error taxonomy of extraction (spec §7). -/
inductive ExtractError where
  | malformedSpec (msg : String)

/-- Modelled from the spec: `extractToolsFromApi` of `parser/extract-tools.ts`
(missing from the sources): fatal `MalformedSpecError` when the document lacks
a paths collection, otherwise the full descriptor sequence. -/
def extractToolsFromApi (doc : ApiDocument) :
    Except ExtractError (List ToolDescriptor) :=
  match doc.paths with
  | none => .error (.malformedSpec "spec has no paths")
  | some ps => .ok (extractLoop doc.security [] (opsOfPaths ps))

/-! ## JS values and JSON.stringify (the runtime the generator calls into) -/

/-- JS runtime values fed to `JSON.stringify`; a `bigint` anywhere makes
`JSON.stringify` throw a TypeError. -/
inductive JsVal where
  | null : JsVal
  | bool (b : Bool) : JsVal
  | num (n : Int) : JsVal
  | str (s : String) : JsVal
  | bigint (n : Int) : JsVal
  | arr (elems : List JsVal) : JsVal
  | obj (fields : List (String × JsVal)) : JsVal

/-- Decimal rendering of an integer. -/
def intToString (n : Int) : String :=
  if n < 0 then "-" ++ natToString n.natAbs else natToString n.natAbs

/-- Escape backslashes and double quotes of a JSON string body. -/
def escapeJsonChars : List Char → List Char
  | [] => []
  | c :: rest =>
    if c == '\\' || c == '"' then '\\' :: c :: escapeJsonChars rest
    else c :: escapeJsonChars rest

/-- A double-quoted JSON string literal. -/
def jsonQuote (s : String) : String :=
  "\"" ++ String.mk (escapeJsonChars s.data) ++ "\""

/-- Join with comma separators. -/
def joinComma : List String → String
  | [] => ""
  | [s] => s
  | s :: rest@(_ :: _) => s ++ "," ++ joinComma rest

mutual

/-- The `JSON.stringify` builtin; `none` models the thrown TypeError. -/
def jsonStringify : JsVal → Option String
  | .null => some "null"
  | .bool b => some (if b then "true" else "false")
  | .num n => some (intToString n)
  | .str s => some (jsonQuote s)
  | .bigint _ => none
  | .arr elems =>
    (jsonStringifyList elems).map (fun parts => "[" ++ joinComma parts ++ "]")
  | .obj fields =>
    (jsonStringifyFields fields).map
      (fun parts => "\x7b" ++ joinComma parts ++ "\x7d")

/-- Stringify array elements, propagating failure. -/
def jsonStringifyList : List JsVal → Option (List String)
  | [] => some []
  | v :: rest =>
    match jsonStringify v, jsonStringifyList rest with
    | some s, some parts => some (s :: parts)
    | _, _ => none

/-- Stringify object members, propagating failure. -/
def jsonStringifyFields : List (String × JsVal) → Option (List String)
  | [] => some []
  | (k, v) :: rest =>
    match jsonStringify v, jsonStringifyFields rest with
    | some s, some parts => some ((jsonQuote k ++ ":" ++ s) :: parts)
    | _, _ => none

end

/-! ## The template sanitizer (`utils/helpers.ts`, modelled from the spec) -/

/-- Modelled from the spec: `sanitizeForTemplate` of `utils/helpers.ts`
(missing from the sources): neutralize every sequence that would terminate or
break a backtick template literal — backslashes, backticks, and interpolation
openers (a dollar directly before an opening brace) — by prefixing a
backslash; all other characters pass through unchanged. -/
def sanitizeChars : List Char → List Char
  | [] => []
  | c :: rest =>
    if c == '\\' || c == Char.ofNat 96 then '\\' :: c :: sanitizeChars rest
    else if c == '$' then
      match rest with
      | b :: _ =>
        if b == Char.ofNat 123 then '\\' :: c :: sanitizeChars rest
        else c :: sanitizeChars rest
      | [] => c :: sanitizeChars rest
    else c :: sanitizeChars rest

/-- String-level wrapper of `sanitizeChars`. -/
def sanitizeForTemplate (s : String) : String := String.mk (sanitizeChars s.data)

/-- Template-literal rendering of escaped text: a backslash escapes the
character after it; every other character denotes itself. -/
def renderChars : List Char → List Char
  | [] => []
  | [c] => if c == '\\' then [] else [c]
  | c :: c₂ :: rest =>
    if c == '\\' then c₂ :: renderChars rest
    else c :: renderChars (c₂ :: rest)

/-- String-level template rendering. -/
def renderTemplate (s : String) : String := String.mk (renderChars s.data)

/-- Whether text can sit inside a backtick template literal without breaking
it: no unescaped backtick and no unescaped interpolation opener. -/
def templateSafe : List Char → Bool
  | [] => true
  | [c] => !(c == Char.ofNat 96)
  | c :: c₂ :: rest =>
    if c == '\\' then templateSafe rest
    else if c == Char.ofNat 96 then false
    else if c == '$' then
      (if c₂ == Char.ofNat 123 then false else templateSafe (c₂ :: rest))
    else templateSafe (c₂ :: rest)

/-! ## The serializer `generateToolDefinitionMap` (src/gen-tool-defs.ts) -/

/-- A tool record as consumed by `generateToolDefinitionMap` (the fields the
function reads; `tags` may be absent, cf. `McpToolDefinition.tags?`). -/
structure Tool where
  name : String
  tags : Option (List String)
  description : String
  inputSchema : JsVal
  method : String
  pathTemplate : String
  executionParameters : JsVal
  requestBodyContentType : Option String
  securityRequirements : JsVal

/-- `JSON.stringify` guarded by try/catch with a fallback literal
(gen-tool-defs.ts lines 55-76). -/
def tryStringify (v : JsVal) (fallback : String) : String :=
  (jsonStringify v).getD fallback

/-- The `requestBodyContentType` slot of the template
(gen-tool-defs.ts line 91): the JS conditional tests truthiness, so both an
absent and an empty content type print as `undefined`. -/
def contentTypeField : Option String → String
  | some ct => if ct == "" then "undefined" else "\"" ++ ct ++ "\""
  | none => "undefined"

/-- `JSON.stringify(tool.tags)` (gen-tool-defs.ts line 85): total on string
arrays; an absent array prints as `undefined`. -/
def tagsField : Option (List String) → String
  | none => "undefined"
  | some ts => "[" ++ joinComma (ts.map jsonQuote) ++ "]"

/-- One serialized map entry: the template literal of
gen-tool-defs.ts lines 82-93. -/
def toolEntry (tool : Tool) : String :=
  "\n  [\"" ++ tool.name ++ "\", \x7b\n    name: \"" ++ tool.name
    ++ "\",\n    tags: " ++ tagsField tool.tags
    ++ ",\n    description: `" ++ sanitizeForTemplate tool.description
    ++ "`,\n    inputSchema: " ++ tryStringify tool.inputSchema "\x7b\x7d"
    ++ ",\n    method: \"" ++ tool.method
    ++ "\",\n    pathTemplate: \"" ++ tool.pathTemplate
    ++ "\",\n    executionParameters: " ++ tryStringify tool.executionParameters "[]"
    ++ ",\n    requestBodyContentType: " ++ contentTypeField tool.requestBodyContentType
    ++ ",\n    securityRequirements: " ++ tryStringify tool.securityRequirements "[]"
    ++ "\n  \x7d],"

/-- Concatenation with the empty separator (`Array.prototype.join('')`). -/
def concatAll : List String → String
  | [] => ""
  | s :: rest => s ++ concatAll rest

/-- `generateToolDefinitionMap` (gen-tool-defs.ts lines 45-96). -/
def generateToolDefinitionMap (tools : List Tool) : String :=
  if tools.length == 0 then "" else concatAll (tools.map toolEntry)

/-- The `--exclude-tags` filter of `main` (gen-tool-defs.ts lines 449-459):
keep the tools none of whose tags is excluded. The predicate reads
`tool.tags` unconditionally, so a tool without a tags array makes the filter
throw a TypeError, modelled as `none`. -/
def filterExcluded : List Tool → List String → Option (List Tool)
  | [], _ => some []
  | t :: rest, ex =>
    match t.tags with
    | none => none
    | some tags =>
      match filterExcluded rest ex with
      | none => none
      | some kept =>
        some (if tags.any (fun tag => ex.contains tag) then kept else t :: kept)

/-! ## Concrete documents and tools used to instantiate the theorems -/

/-- A bare GET operation with no declarations of its own. -/
def emptyGetOp : Operation :=
  { operationId := none, parameters := [], requestBody := none, tags := [],
    summary := none, description := none, security := none }

/-- An operation whose explicit identifier collides with a synthesized name. -/
def collideOp : Operation := { emptyGetOp with operationId := some "get_item" }

/-- A document with two operations that both derive the base name `get_item`. -/
def collideDoc : ApiDocument :=
  { paths := some [
      ("/item", { parameters := [], operations := [("get", emptyGetOp)] }),
      ("/other", { parameters := [], operations := [("get", collideOp)] })],
    security := some [[("ApiKeyAuth", [])]] }

/-- An operation declaring a parameter at the unrecognized location `body`. -/
def badLocOp : Operation :=
  { emptyGetOp with
    parameters := [{ name := "p", loc := "body", required := true, schema := .null }] }

/-- A path item holding only the bad-location operation. -/
def badLocItem : PathItem := { parameters := [], operations := [("get", badLocOp)] }

/-- A structurally valid document whose only operation has a parameter at an
unrecognized location. -/
def badLocDoc : ApiDocument := { paths := some [("/x", badLocItem)], security := none }

/-- A document lacking a paths collection. -/
def noPathsDoc : ApiDocument := { paths := none, security := none }

/-- The global security list `[\x7bApiKeyAuth: []\x7d]` of the spec's scenario 3. -/
def wGlobalSec : Option (List SecurityRequirement) := some [[("ApiKeyAuth", [])]]

/-- A default descriptor, used only to name the value inside an `Option`. -/
def dummyDescriptor : ToolDescriptor :=
  { name := "", tags := [], description := "", inputSchemaProperties := [],
    inputSchemaRequired := [], method := "", pathTemplate := "",
    executionParameters := [], requestBodyContentType := none,
    securityRequirements := [] }

/-- An inherited path-level `id` path parameter. -/
def wPathId : Param :=
  { name := "id", loc := "path", required := true, schema := .str "inherited" }

/-- An inherited path-level `id` query parameter (same name, other location). -/
def wPathQ : Param :=
  { name := "id", loc := "query", required := false, schema := .null }

/-- An operation-level `id` path parameter shadowing `wPathId`. -/
def wOpId : Param :=
  { name := "id", loc := "path", required := true, schema := .str "operation" }

/-- A body offering a non-json type before a json one. -/
def wContentMulti : List (String × Json) :=
  [("text/plain", Json.null), ("application/json", Json.null)]

/-- A body offering only a non-json type. -/
def wContentPlain : List (String × Json) := [("text/plain", Json.null)]

/-- An array-typed body schema (spec scenario 5). -/
def wArraySchema : Json :=
  Json.obj [("type", .str "array"), ("items", .obj [("type", .str "string")])]

/-- An operation whose request body carries the array-typed schema. -/
def wBodyOp : Operation :=
  { emptyGetOp with
    requestBody := some { content := [("application/json", wArraySchema)], required := true } }

/-- A plain well-formed tool record. -/
def baseTool : Tool :=
  { name := "t", tags := some ["a"], description := "d", inputSchema := .obj [],
    method := "get", pathTemplate := "/t", executionParameters := .arr [],
    requestBodyContentType := none, securityRequirements := .arr [] }

/-- A tool carrying a non-empty request-body content type. -/
def wCTTool : Tool := { baseTool with requestBodyContentType := some "application/json" }

/-- A tool carrying an empty-string content type (JS-falsy). -/
def wEmptyCTTool : Tool := { baseTool with requestBodyContentType := some "" }

/-- A tool on which every guarded `JSON.stringify` call throws. -/
def wBadTool : Tool :=
  { baseTool with
    name := "bad"
    inputSchema := .bigint 1
    executionParameters := .bigint 2
    securityRequirements := .bigint 3 }

/-- A two-tool list with one failing tool. -/
def wTools : List Tool := [baseTool, wBadTool]

/-- A tool tagged `internal`. -/
def wToolInternal : Tool := { baseTool with name := "int", tags := some ["internal"] }

/-- A tool tagged `public`. -/
def wToolPublic : Tool := { baseTool with name := "pub", tags := some ["public"] }

/-- A tool without a tags array. -/
def wNoTagsTool : Tool := { baseTool with tags := none }

/-! ## Theorems -/

theorem natDigitsAux_eq_digits :
    ∀ fuel n, n ≤ fuel → natDigitsAux fuel n = Nat.digits 10 n := by
  intro fuel
  induction fuel with
  | zero =>
    intro n hn
    interval_cases n
    simp [natDigitsAux]
  | succ fuel ih =>
    intro n hn
    match n with
    | 0 => simp [natDigitsAux]
    | m + 1 =>
      rw [natDigitsAux, Nat.digits_def' (by norm_num : (1:ℕ) < 10) (Nat.succ_pos m)]
      congr 1
      exact ih ((m + 1) / 10) (by
        have := Nat.div_lt_self (Nat.succ_pos m) (show 1 < 10 by norm_num)
        omega)

theorem natDigits_eq_digits (n : Nat) : natDigits n = Nat.digits 10 n :=
  natDigitsAux_eq_digits n n le_rfl

theorem natDigits_inj {m n : Nat} (h : natDigits m = natDigits n) : m = n := by
  rw [natDigits_eq_digits, natDigits_eq_digits] at h
  exact Nat.digits_inj_iff.mp h

theorem natDigits_lt_ten {n d : Nat} (hd : d ∈ natDigits n) : d < 10 := by
  rw [natDigits_eq_digits] at hd
  exact Nat.digits_lt_base (by norm_num) hd

theorem digitChar_inj_fin : ∀ a b : Fin 10, digitChar a.val = digitChar b.val → a = b := by
  decide

theorem digitChar_inj_lt {a b : Nat} (ha : a < 10) (hb : b < 10)
    (h : digitChar a = digitChar b) : a = b := by
  have := digitChar_inj_fin ⟨a, ha⟩ ⟨b, hb⟩ h
  exact congrArg Fin.val this

theorem map_digitChar_inj :
    ∀ l₁ l₂ : List Nat, (∀ d ∈ l₁, d < 10) → (∀ d ∈ l₂, d < 10) →
      l₁.map digitChar = l₂.map digitChar → l₁ = l₂ := by
  intro l₁
  induction l₁ with
  | nil =>
    intro l₂ _ _ h
    cases l₂ with
    | nil => rfl
    | cons b t => simp at h
  | cons a t ih =>
    intro l₂ h₁ h₂ h
    cases l₂ with
    | nil => simp at h
    | cons b t₂ =>
      simp only [List.map_cons, List.cons.injEq] at h
      have hab : a = b :=
        digitChar_inj_lt (h₁ a (by simp)) (h₂ b (by simp)) h.1
      have ht : t = t₂ :=
        ih t₂ (fun d hd => h₁ d (by simp [hd])) (fun d hd => h₂ d (by simp [hd])) h.2
      rw [hab, ht]

theorem natToString_inj_pos {m n : Nat} (hm : 0 < m) (hn : 0 < n)
    (h : natToString m = natToString n) : m = n := by
  unfold natToString at h
  rw [if_neg (Nat.pos_iff_ne_zero.mp hm), if_neg (Nat.pos_iff_ne_zero.mp hn)] at h
  have hdata : (((natDigits m).map digitChar).reverse) = (((natDigits n).map digitChar).reverse) := by
    injection h
  have hmap : (natDigits m).map digitChar = (natDigits n).map digitChar :=
    List.reverse_injective hdata
  exact natDigits_inj (map_digitChar_inj _ _
    (fun d hd => natDigits_lt_ten hd) (fun d hd => natDigits_lt_ten hd) hmap)

theorem candName_inj_ge2 {base : String} {j k : Nat} (hj : 2 ≤ j) (hk : 2 ≤ k)
    (h : candName base j = candName base k) : j = k := by
  unfold candName at h
  have hdata := congrArg String.data h
  simp only [String.data_append] at hdata
  have h₁ := List.append_cancel_left hdata
  exact natToString_inj_pos (by omega) (by omega) (String.ext h₁)

theorem freshSuffix_shape (used : List String) (base : String) :
    ∀ fuel k, ∃ j, k ≤ j ∧ freshSuffix used base k fuel = candName base j := by
  intro fuel
  induction fuel with
  | zero => intro k; exact ⟨k, le_rfl, rfl⟩
  | succ fuel ih =>
    intro k
    unfold freshSuffix
    by_cases hmem : candName base k ∈ used
    · obtain ⟨j, hj, heq⟩ := ih (k + 1)
      exact ⟨j, by omega, by rw [if_pos hmem]; exact heq⟩
    · exact ⟨k, le_rfl, by rw [if_neg hmem]⟩

theorem freshSuffix_not_mem (used : List String) (base : String) :
    ∀ fuel k,
      ((List.range' k fuel).countP (fun j => decide (candName base j ∈ used))) < fuel →
      freshSuffix used base k fuel ∉ used := by
  intro fuel
  induction fuel with
  | zero => intro k h; simp at h
  | succ fuel ih =>
    intro k h
    rw [List.range'_succ, List.countP_cons] at h
    unfold freshSuffix
    by_cases hmem : candName base k ∈ used
    · rw [if_pos hmem]
      apply ih (k + 1)
      simp [hmem] at h
      omega
    · rw [if_neg hmem]
      exact hmem

theorem uniqueName_not_mem (used : List String) (base : String) :
    uniqueName used base ∉ used := by
  unfold uniqueName
  by_cases hb : base ∈ used
  · rw [if_pos hb]
    apply freshSuffix_not_mem
    rw [List.countP_eq_length_filter]
    set l := (List.range' 2 (used.length + 1)).filter
      (fun j => decide (candName base j ∈ used)) with hl
    have hnodup : l.Nodup := (List.nodup_range' 2 (used.length + 1)).filter _
    have hge : ∀ x ∈ l, 2 ≤ x := by
      intro x hx
      have := List.mem_range'_1.mp (List.mem_of_mem_filter hx)
      omega
    have hmapnodup : (l.map (candName base)).Nodup :=
      hnodup.map_on (fun x hx y hy hxy => candName_inj_ge2 (hge x hx) (hge y hy) hxy)
    have hsub : (l.map (candName base)) ⊆ used := by
      intro s hs
      obtain ⟨j, hj, rfl⟩ := List.mem_map.mp hs
      have := List.of_mem_filter hj
      simpa using this
    have hlen : (l.map (candName base)).length ≤ used.length :=
      (List.subperm_of_subset hmapnodup hsub).length_le
    rw [List.length_map] at hlen
    omega
  · rw [if_neg hb]
    exact hb

theorem uniqueName_collision_shape (used : List String) (base : String)
    (h : base ∈ used) : ∃ k, 2 ≤ k ∧ uniqueName used base = candName base k := by
  unfold uniqueName
  rw [if_pos h]
  obtain ⟨j, hj, heq⟩ := freshSuffix_shape used base (used.length + 1) 2
  exact ⟨j, hj, heq⟩

theorem extractOp_name {g : Option (List SecurityRequirement)} {used : List String}
    {path : String} {pp : List Param} {m : String} {op : Operation} {d : ToolDescriptor}
    (h : extractOp g used path pp m op = some d) :
    d.name = uniqueName used (baseName op m path) := by
  unfold extractOp at h
  split at h
  · injection h with h
    rw [← h]
  · exact Option.noConfusion h

theorem extractLoop_names_nodup (g : Option (List SecurityRequirement)) :
    ∀ (l : List (String × List Param × String × Operation)) (used : List String),
      ((extractLoop g used l).map ToolDescriptor.name).Nodup ∧
      ∀ d ∈ extractLoop g used l, d.name ∉ used := by
  intro l
  induction l with
  | nil => intro used; simp [extractLoop]
  | cons e rest ih =>
    intro used
    simp only [extractLoop]
    cases hop : extractOp g used e.1 e.2.1 e.2.2.1 e.2.2.2 with
    | none => simpa using ih used
    | some d =>
      obtain ⟨ihN, ihD⟩ := ih (d.name :: used)
      have hname : d.name = uniqueName used (baseName e.2.2.2 e.2.2.1 e.1) :=
        extractOp_name hop
      have hnot : d.name ∉ used := by
        rw [hname]; exact uniqueName_not_mem used _
      constructor
      · simp only [List.map_cons, List.nodup_cons]
        refine ⟨?_, ihN⟩
        intro hmem
        obtain ⟨d', hd', hd'name⟩ := List.mem_map.mp hmem
        exact ihD d' hd' (by rw [hd'name]; exact List.mem_cons_self _ _)
      · intro d' hd'
        rcases List.mem_cons.mp hd' with h | h
        · rw [h]; exact hnot
        · exact fun hmem => ihD d' h (List.mem_cons_of_mem _ hmem)

/-- C1: in every successful extraction no two descriptors share a `name`;
and on a base-name collision the later operation deterministically receives
a fresh numeric `_k` suffix (k ≥ 2) instead of overwriting an entry. -/
theorem claim1_unique_names :
    (∀ (doc : ApiDocument) (tools : List ToolDescriptor),
        extractToolsFromApi doc = .ok tools →
        (tools.map ToolDescriptor.name).Nodup) ∧
    (∀ (used : List String) (base : String), base ∈ used →
        ∃ k, 2 ≤ k ∧ uniqueName used base = candName base k ∧
          uniqueName used base ∉ used) := by
  constructor
  · intro doc tools h
    unfold extractToolsFromApi at h
    cases hp : doc.paths with
    | none => rw [hp] at h; cases h
    | some ps =>
      rw [hp] at h
      cases h
      exact (extractLoop_names_nodup doc.security (opsOfPaths ps) []).1
  · intro used base hb
    obtain ⟨k, hk, heq⟩ := uniqueName_collision_shape used base hb
    exact ⟨k, hk, heq, uniqueName_not_mem used base⟩

/-- Witness for C1: the collision document produces pairwise distinct names,
and a used base name is disambiguated away from the used set. -/
theorem claim1_unique_names_witness :
    (((extractToolsFromApi collideDoc).toOption.getD []).map ToolDescriptor.name).Nodup ∧
    uniqueName ["get_item"] "get_item" ∉ ["get_item"] := by
  constructor
  · exact claim1_unique_names.1 collideDoc _ rfl
  · obtain ⟨k, _, _, hnot⟩ :=
      claim1_unique_names.2 ["get_item"] "get_item" (by simp)
    exact hnot

theorem extractOp_skip {g : Option (List SecurityRequirement)} {used : List String}
    {path : String} {pp : List Param} {m : String} {op : Operation}
    (h : (effectiveParameters pp op.parameters).all
      (fun p => recognizedLocs.contains p.loc) = false) :
    extractOp g used path pp m op = none := by
  unfold extractOp
  rw [h]
  simp

/-- C5 (amended): extraction fails, with `MalformedSpecError`, exactly when
the document lacks a paths collection — a failing run produces no descriptor
sequence at all — while an operation with a parameter location outside
path/query/header/cookie is skipped (omitted from the output), not fatal. -/
theorem claim5_malformed_iff :
    (∀ doc : ApiDocument,
      (∃ e, extractToolsFromApi doc = .error e) ↔ doc.paths = none) ∧
    (∀ (g : Option (List SecurityRequirement)) (used : List String) (path : String)
        (pp : List Param) (m : String) (op : Operation),
      (effectiveParameters pp op.parameters).all
          (fun p => recognizedLocs.contains p.loc) = false →
      extractOp g used path pp m op = none) := by
  constructor
  · intro doc
    constructor
    · rintro ⟨e, he⟩
      cases hp : doc.paths with
      | none => rfl
      | some ps =>
        unfold extractToolsFromApi at he
        rw [hp] at he
        cases he
    · intro hp
      refine ⟨.malformedSpec "spec has no paths", ?_⟩
      unfold extractToolsFromApi
      rw [hp]
  · intro g used path pp m op h
    exact extractOp_skip h

/-- Witness for C5: the pathless document fails, and the bad-location
operation is skipped. -/
theorem claim5_malformed_iff_witness :
    (∃ e, extractToolsFromApi noPathsDoc = .error e) ∧
    extractOp none [] "/x" [] "get" badLocOp = none := by
  constructor
  · exact (claim5_malformed_iff.1 noPathsDoc).mpr rfl
  · exact claim5_malformed_iff.2 none [] "/x" [] "get" badLocOp rfl

/-- C5 counterexample: a structurally valid document whose only operation
references the unrecognized parameter location `body` extracts successfully
(the operation is skipped); extraction does not fail, refuting the claimed
"if and only if". -/
theorem claim5_counterexample :
    extractToolsFromApi badLocDoc = .ok [] ∧
    badLocDoc.paths ≠ none ∧
    (effectiveParameters [] badLocOp.parameters).all
        (fun p => recognizedLocs.contains p.loc) = false := by
  refine ⟨rfl, ?_, rfl⟩
  simp [badLocDoc]

/-- C3: a descriptor's security requirements are the operation's own list
when that list is non-empty, otherwise the document's global list unchanged,
otherwise the empty list. -/
theorem claim3_security_resolution :
    (∀ (g : Option (List SecurityRequirement)) (r : SecurityRequirement)
        (rs : List SecurityRequirement),
      resolveSecurity (some (r :: rs)) g = r :: rs ∧
      resolveSecurity (some []) g = g.getD [] ∧
      resolveSecurity none g = g.getD []) ∧
    resolveSecurity none wGlobalSec = [[("ApiKeyAuth", [])]] ∧
    (∀ (g : Option (List SecurityRequirement)) (used : List String) (path : String)
        (pp : List Param) (m : String) (op : Operation) (d : ToolDescriptor),
      extractOp g used path pp m op = some d →
      d.securityRequirements = resolveSecurity op.security g) := by
  refine ⟨fun g r rs => ⟨rfl, rfl, rfl⟩, rfl, ?_⟩
  intro g used path pp m op d h
  unfold extractOp at h
  split at h
  · injection h with h
    rw [← h]
  · exact Option.noConfusion h

/-- Witness for C3 (spec scenario 3): an operation with no security in a
document with global `[\x7bApiKeyAuth: []\x7d]` yields exactly that list. -/
theorem claim3_security_resolution_witness :
    ((extractOp wGlobalSec [] "/item" [] "get" emptyGetOp).getD
        dummyDescriptor).securityRequirements = [[("ApiKeyAuth", [])]] := by
  have h := claim3_security_resolution.2.2 wGlobalSec [] "/item" [] "get" emptyGetOp
    ((extractOp wGlobalSec [] "/item" [] "get" emptyGetOp).getD dummyDescriptor) rfl
  rw [h]
  rfl

/-- C4: path-level parameters are inherited by every operation unless an
operation-level parameter shares their (name, location) key; at a shadowed
key only operation-level parameters (hence their schemas) remain in the
effective set; a parameter matching by name alone does not shadow. -/
theorem claim4_param_inheritance :
    ∀ (pathParams opParams : List Param),
      (∀ q ∈ opParams, q ∈ effectiveParameters pathParams opParams) ∧
      (∀ p ∈ pathParams,
        (∀ q ∈ opParams, ¬(q.name = p.name ∧ q.loc = p.loc)) →
        p ∈ effectiveParameters pathParams opParams) ∧
      (∀ r ∈ effectiveParameters pathParams opParams,
        (∃ q ∈ opParams, q.name = r.name ∧ q.loc = r.loc) → r ∈ opParams) := by
  intro pathParams opParams
  refine ⟨?_, ?_, ?_⟩
  · intro q hq
    exact List.mem_append.mpr (Or.inr hq)
  · intro p hp hnone
    refine List.mem_append.mpr (Or.inl (List.mem_filter.mpr ⟨hp, ?_⟩))
    simp only [Bool.not_eq_true', List.any_eq_false, Bool.and_eq_true, beq_iff_eq, not_and]
    intro q hq h1 h2
    exact hnone q hq ⟨h1, h2⟩
  · rintro r hr ⟨q, hq, hqn, hql⟩
    rcases List.mem_append.mp hr with h | h
    · exfalso
      have hpred := (List.mem_filter.mp h).2
      simp only [Bool.not_eq_true', List.any_eq_false, Bool.and_eq_true, beq_iff_eq,
        not_and] at hpred
      exact hpred q hq hqn hql
    · exact h

/-- Witness for C4: the operation-level `id` path parameter is in the
effective set, the inherited query parameter (name match only) stays, and the
shadowed inherited path parameter is gone. -/
theorem claim4_param_inheritance_witness :
    wOpId ∈ effectiveParameters [wPathId, wPathQ] [wOpId] ∧
    wPathQ ∈ effectiveParameters [wPathId, wPathQ] [wOpId] ∧
    wPathId ∉ effectiveParameters [wPathId, wPathQ] [wOpId] := by
  refine ⟨(claim4_param_inheritance [wPathId, wPathQ] [wOpId]).1 wOpId (by simp), ?_, ?_⟩
  · refine (claim4_param_inheritance [wPathId, wPathQ] [wOpId]).2.1 wPathQ (by simp) ?_
    intro q hq
    rcases List.mem_singleton.mp hq with rfl
    simp [wOpId, wPathQ]
  · intro hmem
    have : effectiveParameters [wPathId, wPathQ] [wOpId] = [wPathQ, wOpId] := rfl
    rw [this] at hmem
    rcases List.mem_cons.mp hmem with h | h
    · exact absurd (congrArg Param.loc h) (by simp [wPathId, wPathQ])
    · rcases List.mem_singleton.mp h with h
      exact absurd (congrArg Param.schema h) (by simp [wPathId, wOpId])

theorem bodyMerged_some {op : Operation} {rb : RequestBody} (eff : List Param)
    (hrb : op.requestBody = some rb) :
    bodyMerged op eff =
      match selectContentType rb.content with
      | none => (paramProperties eff, paramRequired eff, none)
      | some cts =>
        ((mergeBody (paramProperties eff) (paramRequired eff) cts.2 rb.required).1,
         (mergeBody (paramProperties eff) (paramRequired eff) cts.2 rb.required).2,
         some cts.1) := by
  unfold bodyMerged
  rw [hrb]

/-- C6: content-type selection follows the fixed policy — a `json`-like
declared type whenever one is offered, else the first declared type — and the
descriptor's content type is exactly the selected one, so the choice is the
same on every run over the same document. -/
theorem claim6_content_type_policy :
    (∀ content : List (String × Json),
      (content.any (fun e => isJsonLike e.1) = true →
        ∃ e ∈ content, selectContentType content = some e ∧ isJsonLike e.1 = true) ∧
      (content.any (fun e => isJsonLike e.1) = false →
        selectContentType content = content.head?)) ∧
    (∀ (g : Option (List SecurityRequirement)) (used : List String) (path : String)
        (pp : List Param) (m : String) (op : Operation) (d : ToolDescriptor)
        (rb : RequestBody),
      op.requestBody = some rb →
      extractOp g used path pp m op = some d →
      d.requestBodyContentType = (selectContentType rb.content).map Prod.fst) := by
  constructor
  · intro content
    constructor
    · intro hany
      cases hf : content.find? (fun e => isJsonLike e.1) with
      | none =>
        rw [List.find?_eq_none] at hf
        obtain ⟨x, hx, hpx⟩ := List.any_eq_true.mp hany
        exact absurd hpx (hf x hx)
      | some e =>
        refine ⟨e, List.mem_of_find?_eq_some hf, ?_, ?_⟩
        · unfold selectContentType
          rw [hf]
        · have hp := @List.find?_some (String × Json) (fun e => isJsonLike e.1) e content hf
          simpa using hp
    · intro hnone
      unfold selectContentType
      have hf : content.find? (fun e => isJsonLike e.1) = none := by
        rw [List.find?_eq_none]
        intro x hx hpx
        rw [List.any_eq_false] at hnone
        exact hnone x hx hpx
      rw [hf]
  · intro g used path pp m op d rb hrb h
    unfold extractOp at h
    split at h
    · injection h with h
      rw [← h]
      show (bodyMerged op _).2.2 = _
      rw [bodyMerged_some _ hrb]
      cases hsel : selectContentType rb.content with
      | none => rfl
      | some cts => rfl
    · exact Option.noConfusion h

/-- Witness for C6: with `text/plain` declared before `application/json`, the
json-like type is chosen; with only `text/plain`, the first declared type is
chosen; and the descriptor of a body operation carries the selected type. -/
theorem claim6_content_type_policy_witness :
    selectContentType wContentPlain = some ("text/plain", Json.null) ∧
    (∃ e ∈ wContentMulti, selectContentType wContentMulti = some e ∧
      isJsonLike e.1 = true) ∧
    ((extractOp none [] "/t" [] "post" wBodyOp).getD
        dummyDescriptor).requestBodyContentType = some "application/json" := by
  refine ⟨?_, ?_, ?_⟩
  · exact ((claim6_content_type_policy.1 wContentPlain).2 rfl).trans rfl
  · exact (claim6_content_type_policy.1 wContentMulti).1 rfl
  · have h := claim6_content_type_policy.2 none [] "/t" [] "post" wBodyOp
      ((extractOp none [] "/t" [] "post" wBodyOp).getD dummyDescriptor)
      { content := [("application/json", wArraySchema)], required := true } rfl rfl
    rw [h]
    rfl

/-- C7: an object-typed body schema has its properties and required names
merged into the top-level input schema; any other body schema (array,
primitive, …) is nested as the single extra property `requestBody` and never
flattened; the descriptor's input schema is exactly the merge result. -/
theorem claim7_body_merge :
    (∀ (props : List (String × Json)) (req : List String) (schema : Json) (breq : Bool),
      (isObjectSchema schema = true →
        mergeBody props req schema breq =
          (props ++ schema.propsOf, req ++ schema.requiredOf)) ∧
      (isObjectSchema schema = false →
        mergeBody props req schema breq =
          (props ++ [("requestBody", schema)],
           req ++ (if breq then ["requestBody"] else [])))) ∧
    (∀ (g : Option (List SecurityRequirement)) (used : List String) (path : String)
        (pp : List Param) (m : String) (op : Operation) (d : ToolDescriptor)
        (rb : RequestBody) (cts : String × Json),
      op.requestBody = some rb →
      selectContentType rb.content = some cts →
      extractOp g used path pp m op = some d →
      d.inputSchemaProperties =
        (mergeBody (paramProperties (effectiveParameters pp op.parameters))
          (paramRequired (effectiveParameters pp op.parameters)) cts.2 rb.required).1 ∧
      d.inputSchemaRequired =
        (mergeBody (paramProperties (effectiveParameters pp op.parameters))
          (paramRequired (effectiveParameters pp op.parameters)) cts.2 rb.required).2) := by
  constructor
  · intro props req schema breq
    constructor
    · intro h
      simp [mergeBody, h]
    · intro h
      simp [mergeBody, h]
  · intro g used path pp m op d rb cts hrb hsel h
    unfold extractOp at h
    split at h
    · injection h with h
      rw [← h]
      constructor
      · show (bodyMerged op _).1 = _
        rw [bodyMerged_some _ hrb, hsel]
      · show (bodyMerged op _).2.1 = _
        rw [bodyMerged_some _ hrb, hsel]
    · exact Option.noConfusion h

/-- Witness for C7 (spec scenario 5): an `\x7btype: array\x7d` body is nested
as the single `requestBody` property of the descriptor, not flattened. -/
theorem claim7_body_merge_witness :
    mergeBody [] [] wArraySchema true = ([("requestBody", wArraySchema)], ["requestBody"]) ∧
    ((extractOp none [] "/t" [] "post" wBodyOp).getD
        dummyDescriptor).inputSchemaProperties = [("requestBody", wArraySchema)] := by
  constructor
  · exact ((claim7_body_merge.1 [] [] wArraySchema true).2 rfl).trans rfl
  · have h := (claim7_body_merge.2 none [] "/t" [] "post" wBodyOp
      ((extractOp none [] "/t" [] "post" wBodyOp).getD dummyDescriptor)
      { content := [("application/json", wArraySchema)], required := true }
      ("application/json", wArraySchema) rfl rfl rfl).1
    rw [h]
    rfl

theorem char_not_bs {c : Char} (h1 : ¬(c == '\\' || c == Char.ofNat 96) = true) :
    (c == '\\') = false := by
  cases hb : (c == '\\') with
  | false => rfl
  | true => exact absurd (by simp [hb]) h1

theorem char_not_bt {c : Char} (h1 : ¬(c == '\\' || c == Char.ofNat 96) = true) :
    (c == Char.ofNat 96) = false := by
  cases hb : (c == Char.ofNat 96) with
  | false => rfl
  | true => exact absurd (by simp [hb]) h1

theorem renderChars_escape (c : Char) (t : List Char) :
    renderChars ('\\' :: c :: t) = c :: renderChars t := rfl

theorem renderChars_plain {c : Char} (h : (c == '\\') = false) (t : List Char) :
    renderChars (c :: t) = c :: renderChars t := by
  cases t with
  | nil =>
    simp only [renderChars]
    rw [if_neg (by simp [h])]
  | cons c₂ rest =>
    simp only [renderChars]
    rw [if_neg (by simp [h])]

theorem sanitizeChars_cons_escaped {c : Char} (rest : List Char)
    (h1 : (c == '\\' || c == Char.ofNat 96) = true) :
    sanitizeChars (c :: rest) = '\\' :: c :: sanitizeChars rest := by
  simp only [sanitizeChars]
  rw [if_pos h1]

theorem sanitizeChars_cons_dollar_open {c b : Char} (tail : List Char)
    (h1 : ¬(c == '\\' || c == Char.ofNat 96) = true) (h2 : (c == '$') = true)
    (h3 : (b == Char.ofNat 123) = true) :
    sanitizeChars (c :: b :: tail) = '\\' :: c :: sanitizeChars (b :: tail) := by
  simp only [sanitizeChars]
  rw [if_neg h1, if_pos h2, if_pos h3]

theorem sanitizeChars_cons_dollar_plain {c b : Char} (tail : List Char)
    (h1 : ¬(c == '\\' || c == Char.ofNat 96) = true) (h2 : (c == '$') = true)
    (h3 : ¬(b == Char.ofNat 123) = true) :
    sanitizeChars (c :: b :: tail) = c :: sanitizeChars (b :: tail) := by
  simp only [sanitizeChars]
  rw [if_neg h1, if_pos h2, if_neg h3]

theorem sanitizeChars_cons_plain {c : Char} (rest : List Char)
    (h1 : ¬(c == '\\' || c == Char.ofNat 96) = true) (h2 : ¬(c == '$') = true) :
    sanitizeChars (c :: rest) = c :: sanitizeChars rest := by
  simp only [sanitizeChars]
  rw [if_neg h1]
  cases rest with
  | nil => rw [if_neg h2]
  | cons b t => rw [if_neg h2]

theorem sanitizeChars_head (b : Char) (rest : List Char) :
    (∃ t, sanitizeChars (b :: rest) = '\\' :: t) ∨
    (∃ t, sanitizeChars (b :: rest) = b :: t) := by
  by_cases h1 : (b == '\\' || b == Char.ofNat 96) = true
  · exact Or.inl ⟨_, sanitizeChars_cons_escaped rest h1⟩
  · by_cases h2 : (b == '$') = true
    · cases rest with
      | nil =>
        refine Or.inr ⟨[], ?_⟩
        simp only [sanitizeChars]
        rw [if_neg h1, if_pos h2]
      | cons b2 t2 =>
        by_cases h3 : (b2 == Char.ofNat 123) = true
        · exact Or.inl ⟨_, sanitizeChars_cons_dollar_open t2 h1 h2 h3⟩
        · exact Or.inr ⟨_, sanitizeChars_cons_dollar_plain t2 h1 h2 h3⟩
    · exact Or.inr ⟨_, sanitizeChars_cons_plain rest h1 h2⟩

theorem renderChars_sanitizeChars :
    ∀ l : List Char, renderChars (sanitizeChars l) = l := by
  intro l
  induction l using sanitizeChars.induct with
  | case1 => rfl
  | case2 c rest h1 ih =>
    rw [sanitizeChars_cons_escaped rest h1, renderChars_escape, ih]
  | case3 c h1 h2 b tail h3 ih =>
    rw [sanitizeChars_cons_dollar_open tail h1 h2 h3, renderChars_escape, ih]
  | case4 c h1 h2 b tail h3 ih =>
    rw [sanitizeChars_cons_dollar_plain tail h1 h2 h3,
      renderChars_plain (char_not_bs h1), ih]
  | case5 c h1 h2 _ =>
    have hs : sanitizeChars [c] = [c] := by
      simp only [sanitizeChars]
      rw [if_neg h1, if_pos h2]
    rw [hs, renderChars_plain (char_not_bs h1)]
    rfl
  | case6 c rest h1 h2 ih =>
    rw [sanitizeChars_cons_plain rest h1 h2, renderChars_plain (char_not_bs h1), ih]

theorem templateSafe_escape (c : Char) (t : List Char) :
    templateSafe ('\\' :: c :: t) = templateSafe t := rfl

theorem templateSafe_plain {c : Char} (hbs : (c == '\\') = false)
    (hbt : (c == Char.ofNat 96) = false) (hdl : (c == '$') = false) (t : List Char) :
    templateSafe (c :: t) = templateSafe t := by
  cases t with
  | nil =>
    simp only [templateSafe]
    simp [hbt]
  | cons c₂ rest =>
    simp only [templateSafe]
    rw [if_neg (by simp [hbs]), if_neg (by simp [hbt]), if_neg (by simp [hdl])]

theorem templateSafe_sanitizeChars :
    ∀ l : List Char, templateSafe (sanitizeChars l) = true := by
  intro l
  induction l using sanitizeChars.induct with
  | case1 => rfl
  | case2 c rest h1 ih =>
    rw [sanitizeChars_cons_escaped rest h1, templateSafe_escape, ih]
  | case3 c h1 h2 b tail h3 ih =>
    rw [sanitizeChars_cons_dollar_open tail h1 h2 h3, templateSafe_escape, ih]
  | case4 c h1 h2 b tail h3 ih =>
    rw [sanitizeChars_cons_dollar_plain tail h1 h2 h3]
    rcases sanitizeChars_head b tail with ⟨t, ht⟩ | ⟨t, ht⟩
    · rw [ht]
      simp only [templateSafe]
      rw [if_neg (by simp [char_not_bs h1]), if_neg (by simp [char_not_bt h1]),
        if_pos h2, if_neg (by decide : ¬(('\\' : Char) == Char.ofNat 123) = true)]
      rw [← ht, ih]
    · rw [ht]
      simp only [templateSafe]
      rw [if_neg (by simp [char_not_bs h1]), if_neg (by simp [char_not_bt h1]),
        if_pos h2, if_neg h3]
      rw [← ht, ih]
  | case5 c h1 h2 _ =>
    have hs : sanitizeChars [c] = [c] := by
      simp only [sanitizeChars]
      rw [if_neg h1, if_pos h2]
    rw [hs]
    simp only [templateSafe]
    simp [char_not_bt h1]
  | case6 c rest h1 h2 ih =>
    rw [sanitizeChars_cons_plain rest h1 h2]
    rw [templateSafe_plain (char_not_bs h1) (char_not_bt h1)
      (by cases hb : (c == '$') with
        | false => rfl
        | true => exact absurd hb h2), ih]

/-- C2: sanitizing a description neutralizes every template-breaking sequence
(no unescaped backtick or interpolation opener survives), rendering the
sanitized text as a template literal reproduces the original text exactly,
and the serialized entry embeds exactly the sanitized description. -/
theorem claim2_description_escaping :
    (∀ s : String,
      renderTemplate (sanitizeForTemplate s) = s ∧
      templateSafe (sanitizeForTemplate s).data = true) ∧
    (∀ t : Tool, ∃ pre post,
      toolEntry t = pre ++ sanitizeForTemplate t.description ++ post) := by
  constructor
  · intro s
    constructor
    · show String.mk (renderChars (sanitizeChars s.data)) = s
      rw [renderChars_sanitizeChars]
    · exact templateSafe_sanitizeChars s.data
  · intro t
    refine ⟨"\n  [\"" ++ t.name ++ "\", \x7b\n    name: \"" ++ t.name
        ++ "\",\n    tags: " ++ tagsField t.tags ++ ",\n    description: `",
      "`,\n    inputSchema: " ++ tryStringify t.inputSchema "\x7b\x7d"
        ++ ",\n    method: \"" ++ t.method
        ++ "\",\n    pathTemplate: \"" ++ t.pathTemplate
        ++ "\",\n    executionParameters: " ++ tryStringify t.executionParameters "[]"
        ++ ",\n    requestBodyContentType: " ++ contentTypeField t.requestBodyContentType
        ++ ",\n    securityRequirements: " ++ tryStringify t.securityRequirements "[]"
        ++ "\n  \x7d],", ?_⟩
    simp only [toolEntry, String.append_assoc]

/-- C8 counterexample: a tool whose descriptor carries the empty-string
content type (a JS-falsy value) renders the `requestBodyContentType` slot as
the literal `undefined`, not as a double-quoted content-type string, refuting
the claimed "exactly when the descriptor carries a content type". -/
theorem claim8_counterexample :
    wEmptyCTTool.requestBodyContentType = some "" ∧
    contentTypeField wEmptyCTTool.requestBodyContentType = "undefined" ∧
    "undefined" ≠ "\"" ++ "" ++ "\"" := by
  refine ⟨rfl, rfl, by decide⟩

/-- C8 (amended): the `requestBodyContentType` slot of every serialized entry
is the double-quoted content type exactly when the descriptor carries a
non-empty content type, and the literal `undefined` when the content type is
absent — or empty, since the JS conditional tests truthiness. -/
theorem claim8_content_type_field :
    ∀ t : Tool,
      (∃ pre post,
        toolEntry t = pre ++ contentTypeField t.requestBodyContentType ++ post) ∧
      (∀ ct, t.requestBodyContentType = some ct → ct ≠ "" →
        contentTypeField t.requestBodyContentType = "\"" ++ ct ++ "\"") ∧
      ((t.requestBodyContentType = none ∨ t.requestBodyContentType = some "") →
        contentTypeField t.requestBodyContentType = "undefined") := by
  intro t
  refine ⟨⟨"\n  [\"" ++ t.name ++ "\", \x7b\n    name: \"" ++ t.name
      ++ "\",\n    tags: " ++ tagsField t.tags
      ++ ",\n    description: `" ++ sanitizeForTemplate t.description
      ++ "`,\n    inputSchema: " ++ tryStringify t.inputSchema "\x7b\x7d"
      ++ ",\n    method: \"" ++ t.method
      ++ "\",\n    pathTemplate: \"" ++ t.pathTemplate
      ++ "\",\n    executionParameters: " ++ tryStringify t.executionParameters "[]"
      ++ ",\n    requestBodyContentType: ",
    ",\n    securityRequirements: " ++ tryStringify t.securityRequirements "[]"
      ++ "\n  \x7d],",
    by simp only [toolEntry, String.append_assoc]⟩, ?_, ?_⟩
  · intro ct hct hne
    rw [hct]
    simp only [contentTypeField]
    rw [if_neg (by simp [hne])]
  · rintro (h | h) <;> rw [h] <;> rfl

/-- Witness for C8: a non-empty content type renders double-quoted; an absent
one renders `undefined`. -/
theorem claim8_content_type_field_witness :
    contentTypeField wCTTool.requestBodyContentType = "\"application/json\"" ∧
    contentTypeField baseTool.requestBodyContentType = "undefined" := by
  constructor
  · exact (claim8_content_type_field wCTTool).2.1 "application/json" rfl (by decide)
  · exact (claim8_content_type_field baseTool).2.2 (Or.inl rfl)

theorem concatAll_append :
    ∀ l₁ l₂ : List String, concatAll (l₁ ++ l₂) = concatAll l₁ ++ concatAll l₂ := by
  intro l₁ l₂
  induction l₁ with
  | nil => rfl
  | cons s rest ih =>
    show s ++ concatAll (rest ++ l₂) = s ++ concatAll rest ++ concatAll l₂
    rw [ih, String.append_assoc]

/-- C9: the generator returns the empty string for the empty tools list,
emits one complete entry per tool — a guarded `JSON.stringify` failure never
drops an entry or aborts the run — and substitutes `\x7b\x7d` (respectively
`[]`) for just the failing field. -/
theorem claim9_stringify_fallback :
    generateToolDefinitionMap [] = "" ∧
    (∀ (tools : List Tool) (t : Tool), t ∈ tools →
      (∃ pre post, generateToolDefinitionMap tools = pre ++ toolEntry t ++ post) ∧
      (jsonStringify t.inputSchema = none →
        tryStringify t.inputSchema "\x7b\x7d" = "\x7b\x7d") ∧
      (jsonStringify t.executionParameters = none →
        tryStringify t.executionParameters "[]" = "[]") ∧
      (jsonStringify t.securityRequirements = none →
        tryStringify t.securityRequirements "[]" = "[]")) := by
  constructor
  · rfl
  · intro tools t ht
    refine ⟨?_, ?_, ?_, ?_⟩
    · obtain ⟨l₁, l₂, rfl⟩ := List.append_of_mem ht
      refine ⟨concatAll (l₁.map toolEntry), concatAll (l₂.map toolEntry), ?_⟩
      unfold generateToolDefinitionMap
      rw [if_neg (by simp)]
      rw [List.map_append, concatAll_append, List.map_cons]
      simp only [concatAll, String.append_assoc]
    · intro h
      unfold tryStringify
      rw [h]
      rfl
    · intro h
      unfold tryStringify
      rw [h]
      rfl
    · intro h
      unfold tryStringify
      rw [h]
      rfl

/-- Witness for C9: on a two-tool list whose second tool makes every guarded
stringify call throw, the failing tool still gets a complete entry and each
failing field falls back to its literal. -/
theorem claim9_stringify_fallback_witness :
    generateToolDefinitionMap [] = "" ∧
    (∃ pre post, generateToolDefinitionMap wTools = pre ++ toolEntry wBadTool ++ post) ∧
    tryStringify wBadTool.inputSchema "\x7b\x7d" = "\x7b\x7d" ∧
    tryStringify wBadTool.executionParameters "[]" = "[]" ∧
    tryStringify wBadTool.securityRequirements "[]" = "[]" := by
  have hmem : wBadTool ∈ wTools := by simp [wTools]
  obtain ⟨hsplit, hfb1, hfb2, hfb3⟩ := claim9_stringify_fallback.2 wTools wBadTool hmem
  refine ⟨claim9_stringify_fallback.1, hsplit, ?_, ?_, ?_⟩
  · exact hfb1 (by simp [wBadTool, jsonStringify])
  · exact hfb2 (by simp [wBadTool, jsonStringify])
  · exact hfb3 (by simp [wBadTool, jsonStringify])

theorem filterExcluded_eq (ex : List String) :
    ∀ tools : List Tool, (∀ t ∈ tools, t.tags.isSome) →
      filterExcluded tools ex =
        some (tools.filter
          (fun t => !(t.tags.getD []).any (fun tag => ex.contains tag))) := by
  intro tools
  induction tools with
  | nil => intro _; rfl
  | cons t rest ih =>
    intro hall
    obtain ⟨tags, htags⟩ := Option.isSome_iff_exists.mp (hall t (by simp))
    simp only [filterExcluded]
    rw [htags, ih (fun t' ht' => hall t' (by simp [ht']))]
    simp only [List.filter_cons, htags, Option.getD_some]
    by_cases hany : tags.any (fun tag => ex.contains tag) = true
    · rw [hany]
      simp [hany]
    · rw [Bool.not_eq_true] at hany
      rw [hany]
      simp [hany]

theorem filterExcluded_none (ex : List String) :
    ∀ tools : List Tool, ∀ t ∈ tools, t.tags = none →
      filterExcluded tools ex = none := by
  intro tools
  induction tools with
  | nil =>
    intro t ht
    simp at ht
  | cons hd rest ih =>
    intro t ht hnone
    rcases List.mem_cons.mp ht with rfl | hmem
    · simp only [filterExcluded]
      rw [hnone]
    · simp only [filterExcluded]
      cases hhd : hd.tags with
      | none => rfl
      | some tags => rw [ih t hmem hnone]

/-- C10: with a non-empty exclude list, when every tool carries a tags array
the filter keeps exactly the tools having none of the excluded tags, in their
original relative order, and every dropped tool has at least one excluded
tag; a tool without a tags array makes the filter predicate throw, so no
result is produced. -/
theorem claim10_exclude_tags_filter :
    (∀ (tools : List Tool) (ex : List String), ex ≠ [] →
      (∀ t ∈ tools, t.tags.isSome) →
      filterExcluded tools ex =
        some (tools.filter
          (fun t => !(t.tags.getD []).any (fun tag => ex.contains tag))) ∧
      (tools.filter
        (fun t => !(t.tags.getD []).any (fun tag => ex.contains tag))).Sublist tools ∧
      (∀ t ∈ tools,
        t ∉ tools.filter (fun t => !(t.tags.getD []).any (fun tag => ex.contains tag)) →
        (t.tags.getD []).any (fun tag => ex.contains tag) = true)) ∧
    (∀ (tools : List Tool) (ex : List String) (t : Tool), t ∈ tools → t.tags = none →
      filterExcluded tools ex = none) := by
  constructor
  · intro tools ex _hex hall
    refine ⟨filterExcluded_eq ex tools hall, List.filter_sublist tools, ?_⟩
    intro t hmem hnot
    by_contra hfalse
    have hf : (t.tags.getD []).any (fun tag => ex.contains tag) = false := by
      cases hb : (t.tags.getD []).any (fun tag => ex.contains tag) with
      | false => rfl
      | true => exact absurd hb hfalse
    exact hnot (List.mem_filter.mpr ⟨hmem, by rw [hf]; rfl⟩)
  · intro tools ex t hmem hnone
    exact filterExcluded_none ex tools t hmem hnone

/-- Witness for C10: the `internal`-tagged tool is dropped, the `public` one
is kept, and a list containing a tool without tags yields no result. -/
theorem claim10_exclude_tags_filter_witness :
    filterExcluded [wToolInternal, wToolPublic] ["internal"] = some [wToolPublic] ∧
    filterExcluded [wToolPublic, wNoTagsTool] ["internal"] = none := by
  constructor
  · have h := (claim10_exclude_tags_filter.1 [wToolInternal, wToolPublic] ["internal"]
      (by simp)
      (by
        intro t ht
        rcases List.mem_cons.mp ht with rfl | ht2
        · rfl
        · rcases List.mem_singleton.mp ht2 with rfl
          rfl)).1
    rw [h]
    rfl
  · exact claim10_exclude_tags_filter.2 [wToolPublic, wNoTagsTool] ["internal"]
      wNoTagsTool (by simp) rfl
